import Mathlib

/-!
Verification development for the `AntSolver` graph-coloring heuristic of
`src/ant_solver.py`.  The Python class is shallowly embedded: the mutable
per-node attribute maps (`color`, `cost`) become functions `Nat → Nat`,
the ambient NumPy global random state becomes an explicit oracle of
streams consumed one tick per library call, `perf_counter` readings come
from a separate stream, and the `while` loop of `solve` becomes a
fuelled recursion.
-/

namespace AntSolver

/-- Undirected graph: the node list (iteration order of `g.nodes_iter()`)
and an adjacency association list (iteration order of `nx.neighbors`). -/
structure Graph where
  nodes : List Nat
  adjL : List (Nat × List Nat)

/-- Neighbor list of a node, as `nx.neighbors(g, n)` returns it. -/
def Graph.adj (g : Graph) (n : Nat) : List Nat :=
  ((g.adjL.find? (fun p => p.1 == n)).map Prod.snd).getD []

/-- Well-formedness of the embedded graph: node list without duplicates,
adjacency supported on the nodes, neighbor lists without duplicates, no
self-loops, and symmetric adjacency.  Every condition is a bounded
quantifier over a list, so the predicate is decidable on concrete graphs. -/
def Graph.Simple (g : Graph) : Prop :=
  g.nodes.Nodup ∧
  (∀ p ∈ g.adjL, p.1 ∈ g.nodes) ∧
  (∀ p ∈ g.adjL, ∀ m ∈ p.2, m ∈ g.nodes) ∧
  (∀ p ∈ g.adjL, p.2.Nodup) ∧
  (∀ p ∈ g.adjL, p.1 ∉ p.2) ∧
  (∀ p ∈ g.adjL, ∀ m ∈ p.2, p.1 ∈ g.adj m)

/-- Transcription of `max(nx.degree(g).values())` (line 72 computes this
plus one).  Python's `max` raises on an empty sequence; `AntSolver.mk`
models that failure separately, so the fold may default to `0` here. -/
def maxDegree (g : Graph) : Nat :=
  (g.nodes.map (fun n => (g.adj n).length)).foldr Nat.max 0

/-- The single sequential random source (NumPy's global state) plus the
wall clock: `u` models `np.random.random()`, `z` models the integer draws
behind `np.random.choice`, `t` models `perf_counter() - tic` readings.
Each library call consumes one tick of its counter. -/
structure Oracle where
  u : Nat → ℚ
  z : Nat → Nat
  t : Nat → ℚ

/-- Failures possible while constructing the solver.  `valueError` models
Python `ValueError` from `max()` of an empty degree sequence or
`np.random.choice` of an empty `arange`.  `configurationError` is the
error the spec claims the constructor raises on out-of-range parameters;
`__init__` (lines 56-83) contains no validation and no raise, so no code
path below ever produces it. -/
inductive InitError where
  | valueError
  | configurationError
deriving DecidableEq

/-- Pointwise update of an attribute map, `g.node[k][attr] = v`. -/
def updF (f : Nat → Nat) (k v : Nat) : Nat → Nat :=
  fun x => if x = k then v else f x

/-- Transcription of `AntSolver.conflict_level` (lines 100-106): how many
neighbors of `n` carry the same color as `n`. -/
def conflict_level (g : Graph) (color : Nat → Nat) (n : Nat) : Nat :=
  (g.adj n).countP (fun m => color n == color m)

/-- Transcription of `AntSolver.local_potential` (lines 137-140): the
conflict level of the node plus the summed conflict levels of its
neighbors. -/
def local_potential (g : Graph) (color : Nat → Nat) (node : Nat) : Nat :=
  conflict_level g color node + ((g.adj node).map (conflict_level g color)).sum

/-- Index of the first occurrence of the minimum, which is what
`np.argmin` returns (`0` on the empty list, where NumPy raises). -/
def argminFirstIdx (xs : List Nat) : Nat :=
  match xs.min? with
  | none => 0
  | some m => xs.findIdx (fun x => x == m)

/-- Index of the first occurrence of the maximum, which is what
`np.argmax` returns (`0` on the empty list, where NumPy raises). -/
def argmaxFirstIdx (xs : List Nat) : Nat :=
  match xs.max? with
  | none => 0
  | some m => xs.findIdx (fun x => x == m)

/-- Transcription of `AntSolver.worst_adjacent_node` (lines 109-116): the
neighbor of `n` whose metric — cached cost normally, local potential in
order-2 mode — is maximal, taking the first maximal one in iteration
order (`argmax` over the second column of the pair array). -/
def worst_adjacent_node (g : Graph) (order_2 : Bool) (color cost : Nat → Nat) (n : Nat) : Nat :=
  let metrics := (g.adj n).map (fun nei => if order_2 then local_potential g color nei else cost nei)
  (g.adj n).getD (argmaxFirstIdx metrics) 0

/-- Transcription of `AntSolver.total_cost` (lines 119-121): sum of the
cached costs over all nodes. -/
def total_cost (g : Graph) (cost : Nat → Nat) : Nat :=
  (g.nodes.map cost).sum

/-- Adjacency inside the induced subgraph `g.subgraph(s)` used by
`change_to_best`: only neighbors that lie in `s` survive. -/
def subAdj (g : Graph) (s : List Nat) (m : Nat) : List Nat :=
  (g.adj m).filter (fun x => s.contains x)

/-- Conflict level evaluated inside the induced subgraph on `s`. -/
def conflict_level_sub (g : Graph) (s : List Nat) (color : Nat → Nat) (n : Nat) : Nat :=
  (subAdj g s n).countP (fun m => color n == color m)

/-- Local potential evaluated inside the induced subgraph on `s`. -/
def local_potential_sub (g : Graph) (s : List Nat) (color : Nat → Nat) (node : Nat) : Nat :=
  conflict_level_sub g s color node +
    ((subAdj g s node).map (conflict_level_sub g s color)).sum

/-- Transcription of `AntSolver.change_to_best` (lines 142-152): inside
the subgraph induced by `{ant} ∪ N(ant)` try every color
`c ∈ [0, n_colors)` on `ant` — neighbor colors stay fixed and each trial
overwrites the previous trial color, so trials are independent — then
keep the color attaining the first minimal conflict metric
(`np.argmin`).  Python's in-place trials on the shared attribute dict end
with the chosen color written, which this pure form reproduces. -/
def change_to_best (g : Graph) (n_colors : Nat) (order_2 : Bool) (color : Nat → Nat) (ant : Nat) : Nat :=
  let sub := ant :: g.adj ant
  let costs := (List.range n_colors).map (fun c =>
    if order_2 then local_potential_sub g sub (updF color ant c) ant
    else conflict_level_sub g sub (updF color ant c) ant)
  argminFirstIdx costs

/-- Recursion of `samplePerm` on the number of remaining draws. -/
def samplePermAux (O : Oracle) : Nat → List Nat → Nat → List Nat × Nat
  | 0, _, t => ([], t)
  | k + 1, pool, t =>
    let j := O.z t % pool.length
    let r := samplePermAux O k (pool.eraseIdx j) (t + 1)
    (pool.getD j 0 :: r.1, r.2)

/-- Model of `np.random.choice(np.arange(k), k, replace=False)`
(line 127): draw every element of the pool without replacement, one
oracle tick per draw. -/
def samplePerm (O : Oracle) (pool : List Nat) (t : Nat) : List Nat × Nat :=
  samplePermAux O pool.length pool t

/-- Transcription of `AntSolver.random_node_coloring` (lines 86-97):
cap the palette at `max_degree + 1` when the requested count is missing
or larger, then give every node a uniformly drawn color in iteration
order.  `np.random.choice` of an empty `arange` raises `ValueError`,
modelled by the palette-zero branch. -/
def random_node_coloring (g : Graph) (nOpt : Option Nat) (O : Oracle)
    (color : Nat → Nat) (t : Nat) : Except InitError ((Nat → Nat) × Nat) :=
  let max_c := maxDegree g + 1
  let n_colors := match nOpt with
    | none => max_c
    | some n => if max_c < n then max_c else n
  if n_colors = 0 then .error .valueError
  else .ok (g.nodes.foldl
    (fun acc nd => (updF acc.1 nd (O.z acc.2 % n_colors), acc.2 + 1)) (color, t))

/-- Mutable solver state: the live attribute maps, the ant position
array, the retained best snapshot with its cost, the iteration counter
`i`, and the two oracle counters. -/
structure SState where
  color : Nat → Nat
  cost : Nat → Nat
  ants : List Nat
  best : Nat → Nat
  cost_best : Nat
  curr_cost : Nat
  i : Nat
  tick : Nat
  tock : Nat

/-- Constructor configuration after `__init__`'s resolution: `n_colors`
defaulted to `max_degree + 1` when absent, `n_ants` capped at the node
count.  No seed appears here: the source draws from NumPy's ambient
global state and exposes no random-source parameter. -/
structure Config where
  n_colors : Nat
  n_ants : Nat
  pc : ℚ
  pn : ℚ
  max_iters : Nat
  max_time : ℚ
  order_2 : Bool

/-- Initial cost cache (lines 129-130): set each node's cached cost to
its conflict level, over the node iteration order. -/
def initCosts (g : Graph) (color : Nat → Nat) : Nat → Nat :=
  g.nodes.foldl (fun cst n => updF cst n (conflict_level g color n)) (fun _ => 0)

/-- Transcription of `AntSolver.init_solver` (lines 124-134): place the
ants by sampling without replacement from `np.arange(n_ants)` — the raw
integer range, not the graph's node identifiers — then cache every
node's conflict level, and snapshot the initial coloring as the best
one (`self.best = self.g.copy()`, a deep copy in networkx 1.x). -/
def init_solver (g : Graph) (cfg : Config) (O : Oracle) (color : Nat → Nat) (t : Nat) : SState :=
  let ar := samplePerm O (List.range cfg.n_ants) t
  let cost := initCosts g color
  let cb := total_cost g cost
  { color := color, cost := cost, ants := ar.1, best := color,
    cost_best := cb, curr_cost := cb, i := 0, tick := ar.2, tock := 0 }

/-- Resolution of the constructor configuration (`__init__`,
lines 68-78): `n_colors` defaults to `max_degree + 1` when absent,
`n_ants` is capped at the node count. -/
def resolvedConfig (g : Graph) (n_colors : Option Nat) (n_ants : Nat) (pc pn : ℚ)
    (max_iters : Nat) (max_time : ℚ) (order_2 : Bool) : Config :=
  { n_colors := n_colors.getD (maxDegree g + 1), n_ants := min n_ants g.nodes.length,
    pc := pc, pn := pn, max_iters := max_iters, max_time := max_time, order_2 := order_2 }

/-- Transcription of the body of `__init__`: a sequence of assignments
with no validation, so the only failures it can propagate are Python
`ValueError`s (`max()` of an empty degree sequence at line 72;
`np.random.choice` of an empty palette when `pre_colored` is false), and
`configurationError` is never produced. -/
def mk (g : Graph) (gcolor : Nat → Nat) (n_colors : Option Nat) (n_ants : Nat)
    (pre_colored : Bool) (pc pn : ℚ) (max_iters : Nat) (max_time : ℚ)
    (order_2 : Bool) (O : Oracle) : Except InitError (Config × SState) :=
  if g.nodes.isEmpty then .error .valueError
  else if pre_colored then
    .ok (resolvedConfig g n_colors n_ants pc pn max_iters max_time order_2,
      init_solver g (resolvedConfig g n_colors n_ants pc pn max_iters max_time order_2) O gcolor 0)
  else
    match random_node_coloring g (some (n_colors.getD (maxDegree g + 1))) O gcolor 0 with
    | .error e => .error e
    | .ok pr =>
      .ok (resolvedConfig g n_colors n_ants pc pn max_iters max_time order_2,
        init_solver g (resolvedConfig g n_colors n_ants pc pn max_iters max_time order_2)
          O pr.1 pr.2)

/-- Local cost refresh after an ant recolors node `n1` (lines 208-210):
recompute the cached cost of `n1`, then of each of its neighbors, from
the current colors only. -/
def refreshCosts (g : Graph) (color cost : Nat → Nat) (n1 : Nat) : Nat → Nat :=
  (g.adj n1).foldl (fun cst nei => updF cst nei (conflict_level g color nei))
    (updF cost n1 (conflict_level g color n1))

/-- One ant's action inside a sweep (lines 191-212): move — to the worst
adjacent node when `random() < pc`, else to a uniformly chosen neighbor —
store the new position, recolor — locally best color when
`random() < pn`, else a uniform color — and refresh the local costs.
Each NumPy random call consumes one tick of the single source. -/
def antStep (g : Graph) (cfg : Config) (O : Oracle) (s : SState) (a : Nat) : SState :=
  let n0 := s.ants.getD a 0
  let mv :=
    if O.u s.tick < cfg.pc then
      (worst_adjacent_node g cfg.order_2 s.color s.cost n0, s.tick + 1)
    else
      ((g.adj n0).getD (O.z (s.tick + 1) % (g.adj n0).length) 0, s.tick + 2)
  let n1 := mv.1
  let ants := s.ants.set a n1
  let cl :=
    if O.u mv.2 < cfg.pn then
      (change_to_best g cfg.n_colors cfg.order_2 s.color n1, mv.2 + 1)
    else
      (O.z (mv.2 + 1) % cfg.n_colors, mv.2 + 2)
  let color := updF s.color n1 cl.1
  { s with color := color, cost := refreshCosts g color s.cost n1,
           ants := ants, tick := cl.2 }

/-- One sweep (lines 191-212): every ant acts once, in the fixed order
`0 .. n_ants - 1`. -/
def sweep (g : Graph) (cfg : Config) (O : Oracle) (s : SState) : SState :=
  (List.range cfg.n_ants).foldl (antStep g cfg O) s

/-- Post-sweep bookkeeping (lines 213-216): recompute the current total
cost and replace the best snapshot only on strict improvement. -/
def after_sweep_update (g : Graph) (s : SState) : SState :=
  let curr := total_cost g s.cost
  if curr < s.cost_best then
    { s with curr_cost := curr, best := s.color, cost_best := curr }
  else
    { s with curr_cost := curr }

/-- How a fuelled run of the `while` loop ended: fuel ran out while the
loop would continue, the loop guard turned false, or the in-body
`break` fired. -/
inductive ExitKind where
  | fuelExhausted
  | guardFalse
  | breakHit
deriving DecidableEq

/-- Result of a fuelled run: final state, exit kind, and the observer
trace of `(curr_cost, cost_best)` after each completed sweep. -/
structure RunResult where
  state : SState
  exit : ExitKind
  trace : List (Nat × Nat)

/-- Consumption of one `perf_counter` reading: only the tock counter
advances. -/
def tockBump (s : SState) : SState := { s with tock := s.tock + 1 }

/-- The state after one loop body's sweep and best-snapshot update
(lines 190-216), starting from the state in which the guard's
`perf_counter` reading was already consumed. -/
def postSweep (g : Graph) (cfg : Config) (O : Oracle) (s : SState) : SState :=
  after_sweep_update g (sweep g cfg O (tockBump s))

/-- Transcription of the `while` loop of `AntSolver.solve`
(lines 189-220), fuelled.  The guard short-circuits, so the
`perf_counter` reading (one `t` tick) happens only when the first two
conjuncts hold; the body's second reading is consumed by the `break`
check.  The source's `self.i += 1` (line 220) sits after `break` inside
the termination branch and is therefore unreachable: no branch of this
function changes `i`, exactly as in the code. -/
def solveLoop (g : Graph) (cfg : Config) (O : Oracle) : Nat → SState → RunResult
  | 0, s => { state := s, exit := .fuelExhausted, trace := [] }
  | fuel + 1, s =>
    if 0 < s.cost_best ∧ s.i < cfg.max_iters then
      if O.t s.tock < cfg.max_time then
        if (postSweep g cfg O s).cost_best = 0 ∨ cfg.max_time < O.t (postSweep g cfg O s).tock then
          { state := tockBump (postSweep g cfg O s), exit := .breakHit,
            trace := [((postSweep g cfg O s).curr_cost, (postSweep g cfg O s).cost_best)] }
        else
          { state := (solveLoop g cfg O fuel (tockBump (postSweep g cfg O s))).state,
            exit := (solveLoop g cfg O fuel (tockBump (postSweep g cfg O s))).exit,
            trace := ((postSweep g cfg O s).curr_cost, (postSweep g cfg O s).cost_best)
              :: (solveLoop g cfg O fuel (tockBump (postSweep g cfg O s))).trace }
      else { state := tockBump s, exit := .guardFalse, trace := [] }
    else { state := s, exit := .guardFalse, trace := [] }

/-- Transcription of `AntSolver.solve` (lines 178-222): reset `i` to 0
and run the sweep loop; the prints are display-only and carry no
algorithmic state. -/
def solve (g : Graph) (cfg : Config) (O : Oracle) (fuel : Nat) (s : SState) : RunResult :=
  solveLoop g cfg O fuel { s with i := 0 }

/-- Construction followed by a call to `solve`, for whole-pipeline
claims. -/
def runSolver (g : Graph) (gcolor : Nat → Nat) (n_colors : Option Nat) (n_ants : Nat)
    (pre_colored : Bool) (pc pn : ℚ) (max_iters : Nat) (max_time : ℚ)
    (order_2 : Bool) (O : Oracle) (fuel : Nat) : Except InitError RunResult :=
  (mk g gcolor n_colors n_ants pre_colored pc pn max_iters max_time order_2 O).map
    (fun p => solve g p.1 O fuel p.2)

/-- Claim-facing count: how many neighbors of `n1` currently carry the
color `c`. -/
def neighborsWithColor (g : Graph) (color : Nat → Nat) (n1 c : Nat) : Nat :=
  (g.adj n1).countP (fun m => color m == c)

/-- Claim-facing set of conflicting edges: unordered edges, represented
by their ordered endpoint pair with `p.1 < p.2`, whose two endpoints
currently share a color. -/
def conflictEdges (g : Graph) (c : Nat → Nat) : Finset (Nat × Nat) :=
  (g.nodes.toFinset ×ˢ g.nodes.toFinset).filter
    (fun p => p.1 < p.2 ∧ p.2 ∈ g.adj p.1 ∧ c p.1 = c p.2)

/-- The cached-cost invariant: every node's cached cost equals its
current conflict level. -/
def CostInv (g : Graph) (s : SState) : Prop :=
  ∀ n ∈ g.nodes, s.cost n = conflict_level g s.color n

/-- Validation predicate that the spec (section 7) claims the constructor
enforces.  Modelled from the spec words, for comparison with `mk`, which
performs no such check. -/
def specConfigOk (n_colors n_ants : Nat) (pc pn : ℚ) : Prop :=
  1 ≤ n_colors ∧ 1 ≤ n_ants ∧ 0 < pc ∧ pc < 1 ∧ 0 < pn ∧ pn < 1

/-- Concrete path graph 0 - 1 - 2. -/
def pathG : Graph :=
  { nodes := [0, 1, 2], adjL := [(0, [1]), (1, [0, 2]), (2, [1])] }

/-- Concrete triangle graph on 0, 1, 2. -/
def triG : Graph :=
  { nodes := [0, 1, 2], adjL := [(0, [1, 2]), (1, [0, 2]), (2, [0, 1])] }

/-- Concrete path graph on the node identifiers 5 - 6 - 7: a graph whose
nodes are not the dense range starting at 0. -/
def shiftG : Graph :=
  { nodes := [5, 6, 7], adjL := [(5, [6]), (6, [5, 7]), (7, [6])] }

/-- Deterministic oracle: `random()` always returns 0, integer draws are
always 0, the clock always reads 0. -/
def oracleZeros : Oracle :=
  { u := fun _ => 0, z := fun _ => 0, t := fun _ => 0 }

/-- Oracle identical to `oracleZeros` except that every integer draw
returns 1: a different ambient NumPy state. -/
def oracleOnes : Oracle :=
  { u := fun _ => 0, z := fun _ => 1, t := fun _ => 0 }

/-! ### Basic lemmas about attribute-map updates -/

theorem updF_same (f : Nat → Nat) (k v : Nat) : updF f k v k = v := by
  simp [updF]

theorem updF_other (f : Nat → Nat) (k v x : Nat) (h : x ≠ k) : updF f k v x = f x := by
  simp [updF, h]

theorem foldl_updF_eval (f : Nat → Nat) (l : List Nat) (cst : Nat → Nat) (m : Nat) :
    (l.foldl (fun c k => updF c k (f k)) cst) m = if m ∈ l then f m else cst m := by
  induction l generalizing cst with
  | nil => simp
  | cons a l ih =>
    simp only [List.foldl_cons, ih, List.mem_cons]
    by_cases hm : m ∈ l
    · simp [hm]
    · by_cases ha : m = a
      · simp [hm, ha, updF_same]
      · simp [hm, ha, updF_other _ _ _ _ ha]

theorem refreshCosts_eval (g : Graph) (color cost : Nat → Nat) (n1 m : Nat) :
    refreshCosts g color cost n1 m =
      if m ∈ g.adj n1 then conflict_level g color m
      else if m = n1 then conflict_level g color n1 else cost m := by
  unfold refreshCosts
  rw [foldl_updF_eval]
  by_cases h : m ∈ g.adj n1
  · simp [h]
  · by_cases h2 : m = n1
    · subst h2; simp [h, updF_same]
    · simp [h, h2, updF_other _ _ _ _ h2]

theorem initCosts_eval (g : Graph) (color : Nat → Nat) (m : Nat) (hm : m ∈ g.nodes) :
    initCosts g color m = conflict_level g color m := by
  unfold initCosts
  rw [foldl_updF_eval]
  simp [hm]

/-! ### Lemmas about well-formed graphs -/

theorem Graph.adj_cases (g : Graph) (n : Nat) :
    g.adj n = [] ∨ ∃ p ∈ g.adjL, p.1 = n ∧ g.adj n = p.2 := by
  cases h : g.adjL.find? (fun q => q.1 == n) with
  | none => left; simp [Graph.adj, h]
  | some p =>
    right
    refine ⟨p, List.mem_of_find?_eq_some h, ?_, by simp [Graph.adj, h]⟩
    have hp := List.find?_some h
    simpa using hp

theorem Graph.Simple.adj_nodup {g : Graph} (hg : g.Simple) (n : Nat) : (g.adj n).Nodup := by
  rcases Graph.adj_cases g n with h | ⟨p, hp, _, he⟩
  · simp [h]
  · rw [he]; exact hg.2.2.2.1 p hp

theorem Graph.Simple.symm {g : Graph} (hg : g.Simple) {n m : Nat} (h : m ∈ g.adj n) :
    n ∈ g.adj m := by
  rcases Graph.adj_cases g n with he | ⟨p, hp, hk, he⟩
  · rw [he] at h; simp at h
  · rw [he] at h
    have := hg.2.2.2.2.2 p hp m h
    rwa [hk] at this

theorem Graph.Simple.mem_nodes_of_adj {g : Graph} (hg : g.Simple) {n m : Nat}
    (h : m ∈ g.adj n) : n ∈ g.nodes ∧ m ∈ g.nodes := by
  rcases Graph.adj_cases g n with he | ⟨p, hp, hk, he⟩
  · rw [he] at h; simp at h
  · rw [he] at h
    exact ⟨hk ▸ hg.2.1 p hp, hg.2.2.1 p hp m h⟩

theorem Graph.Simple.not_mem_adj_self {g : Graph} (hg : g.Simple) (n : Nat) : n ∉ g.adj n := by
  rcases Graph.adj_cases g n with he | ⟨p, hp, hk, he⟩
  · simp [he]
  · rw [he]
    intro hmem
    rw [← hk] at hmem
    exact hg.2.2.2.2.1 p hp hmem

/-! ### Conflict-level congruence and locality -/

theorem conflict_level_congr {g : Graph} {c1 c2 : Nat → Nat} {n : Nat}
    (hn : c1 n = c2 n) (hadj : ∀ m ∈ g.adj n, c1 m = c2 m) :
    conflict_level g c1 n = conflict_level g c2 n := by
  unfold conflict_level
  exact List.countP_congr (fun m hm => by rw [hn, hadj m hm])

theorem conflict_level_updF_far {g : Graph} (hg : g.Simple) {n1 m : Nat}
    (c : Nat → Nat) (v : Nat) (hm : m ≠ n1) (hadj : m ∉ g.adj n1) :
    conflict_level g (updF c n1 v) m = conflict_level g c m := by
  apply conflict_level_congr
  · exact updF_other _ _ _ _ hm
  · intro x hx
    apply updF_other
    intro hxn1
    subst hxn1
    exact hadj (hg.symm hx)

/-! ### Preservation of the cached-cost invariant -/

theorem costInv_init (g : Graph) (cfg : Config) (O : Oracle) (color : Nat → Nat) (t : Nat) :
    CostInv g (init_solver g cfg O color t) := by
  intro n hn
  simp only [init_solver]
  exact initCosts_eval g color n hn

theorem costInv_recolor {g : Graph} (hg : g.Simple) {color cost : Nat → Nat}
    (hs : ∀ n ∈ g.nodes, cost n = conflict_level g color n) (n1 c1 : Nat) :
    ∀ m ∈ g.nodes,
      refreshCosts g (updF color n1 c1) cost n1 m = conflict_level g (updF color n1 c1) m := by
  intro m hm
  rw [refreshCosts_eval]
  by_cases h1 : m ∈ g.adj n1
  · simp [h1]
  · by_cases h2 : m = n1
    · simp [h1, h2]
    · simp only [h1, h2, if_false]
      rw [hs m hm]
      exact (conflict_level_updF_far hg color c1 h2 h1).symm

theorem costInv_antStep {g : Graph} (hg : g.Simple) (cfg : Config) (O : Oracle)
    {s : SState} (hs : CostInv g s) (a : Nat) : CostInv g (antStep g cfg O s a) :=
  fun m hm => costInv_recolor hg hs _ _ m hm

theorem costInv_foldl {g : Graph} (hg : g.Simple) (cfg : Config) (O : Oracle)
    {s : SState} (hs : CostInv g s) (l : List Nat) :
    CostInv g (l.foldl (antStep g cfg O) s) := by
  induction l generalizing s with
  | nil => exact hs
  | cons a l ih => exact ih (costInv_antStep hg cfg O hs a)

theorem costInv_sweep {g : Graph} (hg : g.Simple) (cfg : Config) (O : Oracle)
    {s : SState} (hs : CostInv g s) : CostInv g (sweep g cfg O s) :=
  costInv_foldl hg cfg O hs _

/-! ### First-occurrence argmin / argmax -/

theorem getD_eq_elem (l : List Nat) (j : Nat) (h : j < l.length) : l.getD j 0 = l[j] := by
  simp [List.getD_eq_getElem?_getD, List.getElem?_eq_getElem h]

theorem nat_min_eq_or (a b : Nat) : min a b = a ∨ min a b = b := by
  rcases Nat.le_total a b with h | h
  · left; exact Nat.min_eq_left h
  · right; exact Nat.min_eq_right h

theorem nat_max_eq_or (a b : Nat) : max a b = a ∨ max a b = b := by
  rcases Nat.le_total a b with h | h
  · right; exact Nat.max_eq_right h
  · left; exact Nat.max_eq_left h

theorem argminFirstIdx_spec (xs : List Nat) (hne : xs ≠ []) :
    argminFirstIdx xs < xs.length ∧
    (∀ j, j < xs.length → xs.getD (argminFirstIdx xs) 0 ≤ xs.getD j 0) ∧
    (∀ j, j < argminFirstIdx xs → xs.getD (argminFirstIdx xs) 0 < xs.getD j 0) := by
  cases hmin : xs.min? with
  | none => exact absurd (List.min?_eq_none_iff.mp hmin) hne
  | some m =>
    have hmem : m ∈ xs := List.min?_mem nat_min_eq_or hmin
    have hle : ∀ b ∈ xs, m ≤ b :=
      fun b hb => (List.le_min?_iff (fun a b c => Nat.le_min) hmin).mp (Nat.le_refl m) b hb
    have hidx : xs.findIdx (fun x => x == m) < xs.length :=
      List.findIdx_lt_length_of_exists ⟨m, hmem, by simp⟩
    have hai : argminFirstIdx xs = xs.findIdx (fun x => x == m) := by
      simp [argminFirstIdx, hmin]
    have hval : xs.getD (argminFirstIdx xs) 0 = m := by
      rw [hai, getD_eq_elem _ _ hidx]
      have := @List.findIdx_getElem _ (fun x => x == m) xs hidx
      simpa using this
    refine ⟨hai ▸ hidx, ?_, ?_⟩
    · intro j hj
      rw [hval, getD_eq_elem _ _ hj]
      exact hle _ (xs.getElem_mem hj)
    · intro j hj
      have hjlen : j < xs.length := Nat.lt_trans hj (hai ▸ hidx)
      rw [hval, getD_eq_elem _ _ hjlen]
      have hne2 : (xs[j] == m) = false := by
        have := List.not_of_lt_findIdx (hai ▸ hj)
        simpa using this
      have : xs[j] ≠ m := by simpa using hne2
      exact Nat.lt_of_le_of_ne (hle _ (xs.getElem_mem hjlen)) (fun hc => this hc.symm)

theorem argmaxFirstIdx_spec (xs : List Nat) (hne : xs ≠ []) :
    argmaxFirstIdx xs < xs.length ∧
    (∀ j, j < xs.length → xs.getD j 0 ≤ xs.getD (argmaxFirstIdx xs) 0) ∧
    (∀ j, j < argmaxFirstIdx xs → xs.getD j 0 < xs.getD (argmaxFirstIdx xs) 0) := by
  cases hmax : xs.max? with
  | none => exact absurd (List.max?_eq_none_iff.mp hmax) hne
  | some m =>
    have hmem : m ∈ xs := List.max?_mem nat_max_eq_or hmax
    have hle : ∀ b ∈ xs, b ≤ m :=
      fun b hb => (List.max?_le_iff (fun a b c => Nat.max_le) hmax).mp (Nat.le_refl m) b hb
    have hidx : xs.findIdx (fun x => x == m) < xs.length :=
      List.findIdx_lt_length_of_exists ⟨m, hmem, by simp⟩
    have hai : argmaxFirstIdx xs = xs.findIdx (fun x => x == m) := by
      simp [argmaxFirstIdx, hmax]
    have hval : xs.getD (argmaxFirstIdx xs) 0 = m := by
      rw [hai, getD_eq_elem _ _ hidx]
      have := @List.findIdx_getElem _ (fun x => x == m) xs hidx
      simpa using this
    refine ⟨hai ▸ hidx, ?_, ?_⟩
    · intro j hj
      rw [hval, getD_eq_elem _ _ hj]
      exact hle _ (xs.getElem_mem hj)
    · intro j hj
      have hjlen : j < xs.length := Nat.lt_trans hj (hai ▸ hidx)
      rw [hval, getD_eq_elem _ _ hjlen]
      have hne2 : (xs[j] == m) = false := by
        have := List.not_of_lt_findIdx (hai ▸ hj)
        simpa using this
      have : xs[j] ≠ m := by simpa using hne2
      exact Nat.lt_of_le_of_ne (hle _ (xs.getElem_mem hjlen)) this

/-! ### Double counting: sum of conflict levels = twice the conflicting edges -/

/-- All ordered incidences of a conflicting edge: pairs of a node and one
of its neighbors sharing its color. -/
def conflictPairs (g : Graph) (c : Nat → Nat) : Finset ((_ : Nat) × Nat) :=
  g.nodes.toFinset.sigma (fun n => (g.adj n).toFinset.filter (fun m => c n = c m))

theorem mem_conflictPairs {g : Graph} {c : Nat → Nat} {p : (_ : Nat) × Nat} :
    p ∈ conflictPairs g c ↔ p.1 ∈ g.nodes ∧ p.2 ∈ g.adj p.1 ∧ c p.1 = c p.2 := by
  simp [conflictPairs, Finset.mem_sigma, Finset.mem_filter, List.mem_toFinset, and_assoc]

theorem conflict_level_eq_card {g : Graph} (hg : g.Simple) (c : Nat → Nat) (n : Nat) :
    conflict_level g c n = ((g.adj n).toFinset.filter (fun m => c n = c m)).card := by
  unfold conflict_level
  rw [List.countP_eq_length_filter]
  rw [← List.toFinset_card_of_nodup (List.Nodup.filter _ (hg.adj_nodup n))]
  rw [List.toFinset_filter]
  congr 1
  apply Finset.filter_congr
  intro x _
  simp

theorem sum_conflict_eq_card_pairs {g : Graph} (hg : g.Simple) (c : Nat → Nat) :
    (g.nodes.map (conflict_level g c)).sum = (conflictPairs g c).card := by
  rw [← List.sum_toFinset _ hg.1, conflictPairs, Finset.card_sigma]
  exact Finset.sum_congr rfl (fun n _ => conflict_level_eq_card hg c n)

theorem card_pairs_eq_twice {g : Graph} (hg : g.Simple) (c : Nat → Nat) :
    (conflictPairs g c).card = 2 * (conflictEdges g c).card := by
  have hsplit :
      ((conflictPairs g c).filter (fun p => p.1 < p.2)).card
        + ((conflictPairs g c).filter (fun p => ¬ p.1 < p.2)).card
        = (conflictPairs g c).card :=
    Finset.filter_card_add_filter_neg_card_eq_card _
  have hneg :
      (conflictPairs g c).filter (fun p => ¬ p.1 < p.2)
        = (conflictPairs g c).filter (fun p => p.2 < p.1) := by
    apply Finset.filter_congr
    intro p hp
    have hmem := mem_conflictPairs.mp hp
    have hne : p.1 ≠ p.2 := by
      intro he
      have := hg.not_mem_adj_self p.1
      rw [he] at this
      exact this (he ▸ hmem.2.1)
    omega
  have hswap :
      ((conflictPairs g c).filter (fun p => p.2 < p.1)).card
        = ((conflictPairs g c).filter (fun p => p.1 < p.2)).card := by
    apply Finset.card_nbij' (fun p => ⟨p.2, p.1⟩) (fun p => ⟨p.2, p.1⟩)
    · intro p hp
      rcases Finset.mem_filter.mp hp with ⟨hp1, hp2⟩
      have hmem := mem_conflictPairs.mp hp1
      refine Finset.mem_filter.mpr ⟨mem_conflictPairs.mpr ?_, hp2⟩
      exact ⟨(hg.mem_nodes_of_adj hmem.2.1).2, hg.symm hmem.2.1, hmem.2.2.symm⟩
    · intro p hp
      rcases Finset.mem_filter.mp hp with ⟨hp1, hp2⟩
      have hmem := mem_conflictPairs.mp hp1
      refine Finset.mem_filter.mpr ⟨mem_conflictPairs.mpr ?_, hp2⟩
      exact ⟨(hg.mem_nodes_of_adj hmem.2.1).2, hg.symm hmem.2.1, hmem.2.2.symm⟩
    · intro p _; rfl
    · intro p _; rfl
  have hlt :
      ((conflictPairs g c).filter (fun p => p.1 < p.2)).card = (conflictEdges g c).card := by
    apply Finset.card_nbij' (fun p => (p.1, p.2)) (fun q => ⟨q.1, q.2⟩)
    · intro p hp
      rcases Finset.mem_filter.mp hp with ⟨hp1, hp2⟩
      have hmem := mem_conflictPairs.mp hp1
      have hn2 : p.2 ∈ g.nodes := (hg.mem_nodes_of_adj hmem.2.1).2
      refine Finset.mem_filter.mpr ⟨?_, hp2, hmem.2.1, hmem.2.2⟩
      exact Finset.mem_product.mpr ⟨List.mem_toFinset.mpr hmem.1, List.mem_toFinset.mpr hn2⟩
    · intro q hq
      rcases Finset.mem_filter.mp hq with ⟨hq1, hq2⟩
      rcases Finset.mem_product.mp hq1 with ⟨hqa, _⟩
      refine Finset.mem_filter.mpr ⟨mem_conflictPairs.mpr ?_, hq2.1⟩
      exact ⟨List.mem_toFinset.mp hqa, hq2.2.1, hq2.2.2⟩
    · intro p _; rfl
    · intro q _; rfl
  have hnegc :
      ((conflictPairs g c).filter (fun p => ¬ p.1 < p.2)).card
        = ((conflictPairs g c).filter (fun p => p.2 < p.1)).card := by
    rw [hneg]
  omega

theorem total_cost_eq_twice_conflicts {g : Graph} (hg : g.Simple) {s : SState}
    (hs : CostInv g s) :
    total_cost g s.cost = 2 * (conflictEdges g s.color).card := by
  unfold total_cost
  rw [List.map_congr_left hs]
  rw [sum_conflict_eq_card_pairs hg s.color]
  exact card_pairs_eq_twice hg s.color

/-! ### Which fields the sweep loop touches -/

theorem antStep_best (g : Graph) (cfg : Config) (O : Oracle) (s : SState) (a : Nat) :
    (antStep g cfg O s a).best = s.best := rfl

theorem antStep_cost_best (g : Graph) (cfg : Config) (O : Oracle) (s : SState) (a : Nat) :
    (antStep g cfg O s a).cost_best = s.cost_best := rfl

theorem antStep_i (g : Graph) (cfg : Config) (O : Oracle) (s : SState) (a : Nat) :
    (antStep g cfg O s a).i = s.i := rfl

theorem foldl_preserve {β : Type} (f : SState → Nat → SState) (proj : SState → β)
    (hf : ∀ s a, proj (f s a) = proj s) :
    ∀ (l : List Nat) (s : SState), proj (l.foldl f s) = proj s := by
  intro l
  induction l with
  | nil => intro s; rfl
  | cons a l ih => intro s; rw [List.foldl_cons, ih, hf]

theorem sweep_best (g : Graph) (cfg : Config) (O : Oracle) (s : SState) :
    (sweep g cfg O s).best = s.best :=
  foldl_preserve _ _ (antStep_best g cfg O) _ s

theorem sweep_cost_best (g : Graph) (cfg : Config) (O : Oracle) (s : SState) :
    (sweep g cfg O s).cost_best = s.cost_best :=
  foldl_preserve _ _ (antStep_cost_best g cfg O) _ s

theorem sweep_i (g : Graph) (cfg : Config) (O : Oracle) (s : SState) :
    (sweep g cfg O s).i = s.i :=
  foldl_preserve _ _ (antStep_i g cfg O) _ s

theorem after_sweep_update_cost_best (g : Graph) (s : SState) :
    (after_sweep_update g s).cost_best = min s.cost_best (total_cost g s.cost) := by
  unfold after_sweep_update
  by_cases h : total_cost g s.cost < s.cost_best
  · simp only [h, if_true]
    exact (Nat.min_eq_right (Nat.le_of_lt h)).symm
  · simp only [h, if_false]
    exact (Nat.min_eq_left (Nat.le_of_not_lt h)).symm

theorem after_sweep_update_best (g : Graph) (s : SState) :
    (after_sweep_update g s).best =
      if total_cost g s.cost < s.cost_best then s.color else s.best := by
  unfold after_sweep_update
  by_cases h : total_cost g s.cost < s.cost_best <;> simp [h]

theorem after_sweep_update_curr (g : Graph) (s : SState) :
    (after_sweep_update g s).curr_cost = total_cost g s.cost := by
  unfold after_sweep_update
  by_cases h : total_cost g s.cost < s.cost_best <;> simp [h]

theorem after_sweep_update_i (g : Graph) (s : SState) :
    (after_sweep_update g s).i = s.i := by
  unfold after_sweep_update
  by_cases h : total_cost g s.cost < s.cost_best <;> simp [h]

/-! ### Loop-level lemmas -/

theorem tockBump_cost_best (s : SState) : (tockBump s).cost_best = s.cost_best := rfl

theorem postSweep_i (g : Graph) (cfg : Config) (O : Oracle) (s : SState) :
    (postSweep g cfg O s).i = s.i := by
  unfold postSweep
  rw [after_sweep_update_i, sweep_i]
  rfl

theorem postSweep_cost_best (g : Graph) (cfg : Config) (O : Oracle) (s : SState) :
    (postSweep g cfg O s).cost_best
      = min s.cost_best (total_cost g (sweep g cfg O (tockBump s)).cost) := by
  unfold postSweep
  rw [after_sweep_update_cost_best, sweep_cost_best]
  rfl

theorem postSweep_curr (g : Graph) (cfg : Config) (O : Oracle) (s : SState) :
    (postSweep g cfg O s).curr_cost = total_cost g (sweep g cfg O (tockBump s)).cost := by
  unfold postSweep
  rw [after_sweep_update_curr]

theorem postSweep_cost_best_le (g : Graph) (cfg : Config) (O : Oracle) (s : SState) :
    (postSweep g cfg O s).cost_best ≤ s.cost_best := by
  rw [postSweep_cost_best]
  exact Nat.min_le_left _ _

theorem after_sweep_best_frame (g : Graph) (u : SState) :
    ((after_sweep_update g u).best = u.best ∧
      (after_sweep_update g u).cost_best = u.cost_best)
    ∨ (after_sweep_update g u).cost_best < u.cost_best := by
  by_cases h : total_cost g u.cost < u.cost_best
  · right
    rw [after_sweep_update_cost_best, Nat.min_eq_right (Nat.le_of_lt h)]
    exact h
  · left
    constructor
    · rw [after_sweep_update_best]
      simp [h]
    · rw [after_sweep_update_cost_best, Nat.min_eq_left (Nat.le_of_not_lt h)]

theorem postSweep_best_frame (g : Graph) (cfg : Config) (O : Oracle) (s : SState) :
    ((postSweep g cfg O s).best = s.best ∧ (postSweep g cfg O s).cost_best = s.cost_best)
    ∨ (postSweep g cfg O s).cost_best < s.cost_best := by
  have h := after_sweep_best_frame g (sweep g cfg O (tockBump s))
  rw [sweep_best, sweep_cost_best] at h
  exact h

theorem solveLoop_state_i (g : Graph) (cfg : Config) (O : Oracle) :
    ∀ (fuel : Nat) (s : SState), (solveLoop g cfg O fuel s).state.i = s.i := by
  intro fuel
  induction fuel with
  | zero => intro s; rfl
  | succ n ih =>
    intro s
    rw [solveLoop]
    split
    · split
      · split
        · exact postSweep_i g cfg O s
        · show (solveLoop g cfg O n (tockBump (postSweep g cfg O s))).state.i = s.i
          rw [ih]
          exact postSweep_i g cfg O s
      · rfl
    · rfl

theorem solveLoop_cost_best_min (g : Graph) (cfg : Config) (O : Oracle) :
    ∀ (fuel : Nat) (s : SState),
      (solveLoop g cfg O fuel s).state.cost_best
        = (solveLoop g cfg O fuel s).trace.foldl (fun b p => min b p.1) s.cost_best := by
  intro fuel
  induction fuel with
  | zero => intro s; rfl
  | succ n ih =>
    intro s
    rw [solveLoop]
    split
    · split
      · split
        · show (postSweep g cfg O s).cost_best
            = min s.cost_best (postSweep g cfg O s).curr_cost
          rw [postSweep_cost_best, postSweep_curr]
        · show (solveLoop g cfg O n (tockBump (postSweep g cfg O s))).state.cost_best
            = List.foldl (fun b p => min b p.1)
                (min s.cost_best (postSweep g cfg O s).curr_cost)
                (solveLoop g cfg O n (tockBump (postSweep g cfg O s))).trace
          rw [ih]
          congr 1
          show (postSweep g cfg O s).cost_best
            = min s.cost_best (postSweep g cfg O s).curr_cost
          rw [postSweep_cost_best, postSweep_curr]
      · rfl
    · rfl

theorem solveLoop_chain (g : Graph) (cfg : Config) (O : Oracle) :
    ∀ (fuel : Nat) (s : SState),
      List.Chain' (fun a b => b ≤ a)
        (s.cost_best :: (solveLoop g cfg O fuel s).trace.map Prod.snd) := by
  intro fuel
  induction fuel with
  | zero =>
    intro s
    show List.Chain' (fun a b => b ≤ a) [s.cost_best]
    exact List.chain'_singleton _
  | succ n ih =>
    intro s
    rw [solveLoop]
    split
    · split
      · split
        · show List.Chain' (fun a b => b ≤ a)
            (s.cost_best :: [(postSweep g cfg O s).cost_best])
          rw [List.chain'_cons]
          exact ⟨postSweep_cost_best_le g cfg O s, List.chain'_singleton _⟩
        · show List.Chain' (fun a b => b ≤ a)
            (s.cost_best :: (postSweep g cfg O s).cost_best
              :: (solveLoop g cfg O n (tockBump (postSweep g cfg O s))).trace.map Prod.snd)
          rw [List.chain'_cons]
          exact ⟨postSweep_cost_best_le g cfg O s, ih (tockBump (postSweep g cfg O s))⟩
      · show List.Chain' (fun a b => b ≤ a) [s.cost_best]
        exact List.chain'_singleton _
    · show List.Chain' (fun a b => b ≤ a) [s.cost_best]
      exact List.chain'_singleton _

theorem solveLoop_cost_best_le (g : Graph) (cfg : Config) (O : Oracle) :
    ∀ (fuel : Nat) (s : SState),
      (solveLoop g cfg O fuel s).state.cost_best ≤ s.cost_best := by
  intro fuel
  induction fuel with
  | zero => intro s; exact Nat.le_refl _
  | succ n ih =>
    intro s
    rw [solveLoop]
    split
    · split
      · split
        · exact postSweep_cost_best_le g cfg O s
        · exact Nat.le_trans (ih (tockBump (postSweep g cfg O s)))
            (postSweep_cost_best_le g cfg O s)
      · exact Nat.le_refl _
    · exact Nat.le_refl _

theorem solveLoop_best_frame (g : Graph) (cfg : Config) (O : Oracle) :
    ∀ (fuel : Nat) (s : SState),
      ((solveLoop g cfg O fuel s).state.best = s.best ∧
        (solveLoop g cfg O fuel s).state.cost_best = s.cost_best)
      ∨ (solveLoop g cfg O fuel s).state.cost_best < s.cost_best := by
  intro fuel
  induction fuel with
  | zero => intro s; exact Or.inl ⟨rfl, rfl⟩
  | succ n ih =>
    intro s
    rw [solveLoop]
    split
    · split
      · split
        · exact postSweep_best_frame g cfg O s
        · show ((solveLoop g cfg O n (tockBump (postSweep g cfg O s))).state.best = s.best ∧
              (solveLoop g cfg O n (tockBump (postSweep g cfg O s))).state.cost_best
                = s.cost_best)
            ∨ (solveLoop g cfg O n (tockBump (postSweep g cfg O s))).state.cost_best
                < s.cost_best
          rcases postSweep_best_frame g cfg O s with ⟨hb, hc⟩ | hlt
          · rcases ih (tockBump (postSweep g cfg O s)) with ⟨hb2, hc2⟩ | hlt2
            · exact Or.inl ⟨hb2.trans hb, hc2.trans hc⟩
            · exact Or.inr (Nat.lt_of_lt_of_le hlt2 (Nat.le_of_eq hc))
          · rcases ih (tockBump (postSweep g cfg O s)) with ⟨hb2, hc2⟩ | hlt2
            · exact Or.inr (Nat.lt_of_le_of_lt (Nat.le_of_eq hc2) hlt)
            · exact Or.inr (Nat.lt_trans hlt2 hlt)
      · exact Or.inl ⟨rfl, rfl⟩
    · exact Or.inl ⟨rfl, rfl⟩

/-! ### The color policy's trial metric -/

theorem subAdj_self {g : Graph} (ant : Nat) :
    subAdj g (ant :: g.adj ant) ant = g.adj ant := by
  unfold subAdj
  apply List.filter_eq_self.mpr
  intro m hm
  have : m ∈ ant :: g.adj ant := List.mem_cons_of_mem ant hm
  exact List.elem_eq_true_of_mem this

theorem change_to_best_metric {g : Graph} (hg : g.Simple) (color : Nat → Nat) (ant c : Nat) :
    conflict_level_sub g (ant :: g.adj ant) (updF color ant c) ant
      = neighborsWithColor g color ant c := by
  unfold conflict_level_sub neighborsWithColor
  rw [subAdj_self]
  apply List.countP_congr
  intro m hm
  have hma : m ≠ ant := fun he => (hg.not_mem_adj_self ant) (he ▸ hm)
  rw [updF_same, updF_other _ _ _ _ hma]
  constructor
  · intro h
    have h2 : c = color m := by simpa using h
    simp [h2]
  · intro h
    have h2 : color m = c := by simpa using h
    simp [h2]

theorem change_to_best_eq_argmin (g : Graph) (n_colors : Nat) (color : Nat → Nat) (ant : Nat) :
    change_to_best g n_colors false color ant
      = argminFirstIdx ((List.range n_colors).map
          (fun c => conflict_level_sub g (ant :: g.adj ant) (updF color ant c) ant)) := by
  simp [change_to_best]

instance decidableSimple (g : Graph) : Decidable g.Simple := by
  unfold Graph.Simple
  infer_instance

/-- Concrete configuration used by witnesses. -/
def cfgW : Config :=
  { n_colors := 2, n_ants := 2, pc := 2, pn := 2,
    max_iters := 5, max_time := 100, order_2 := false }

/-- Claim C4: in every reachable state — established at initialization and
preserved by every ant step's local cost refresh — each node's cached cost
equals the number of its neighbors currently sharing its color, and
therefore the total cost equals exactly twice the number of edges whose
endpoints share a color, hence is even. -/
theorem C4_cost_invariant_and_parity (g : Graph) (hg : g.Simple) (cfg : Config) (O : Oracle) :
    (∀ (color : Nat → Nat) (t : Nat), CostInv g (init_solver g cfg O color t)) ∧
    (∀ (s : SState) (a : Nat), CostInv g s → CostInv g (antStep g cfg O s a)) ∧
    (∀ s : SState, CostInv g s →
      total_cost g s.cost = 2 * (conflictEdges g s.color).card ∧
        Even (total_cost g s.cost)) := by
  refine ⟨fun color t => costInv_init g cfg O color t,
          fun s a hs => costInv_antStep hg cfg O hs a,
          fun s hs => ?_⟩
  have h := total_cost_eq_twice_conflicts hg hs
  exact ⟨h, ⟨(conflictEdges g s.color).card, by omega⟩⟩

/-- Witness for C4 on the concrete path graph: the invariant holds after
initialization, and there the total cost is twice the conflicting edge
count. -/
theorem C4_witness :
    total_cost pathG (init_solver pathG cfgW oracleZeros (fun _ => 0) 0).cost
      = 2 * (conflictEdges pathG (init_solver pathG cfgW oracleZeros (fun _ => 0) 0).color).card :=
  ((C4_cost_invariant_and_parity pathG (by decide) cfgW oracleZeros).2.2 _
    ((C4_cost_invariant_and_parity pathG (by decide) cfgW oracleZeros).1 (fun _ => 0) 0)).1

/-- Claim C5: the best snapshot's cost starts as the initialization total
cost, the snapshot is replaced exactly when the post-sweep current total
cost is strictly smaller than the retained best cost (never on ties), the
retained cost after a sweep is the minimum of the old one and the current
cost, the final `cost_best` of any fuelled run is the minimum cost
observed across the start state and all completed sweeps, and the
sweep-after-sweep `cost_best` sequence is non-increasing. -/
theorem C5_best_cost_monotone_min (g : Graph) (cfg : Config) (O : Oracle) :
    (∀ (color : Nat → Nat) (t : Nat),
      (init_solver g cfg O color t).cost_best
        = total_cost g (init_solver g cfg O color t).cost) ∧
    (∀ u : SState,
      (after_sweep_update g u).best
        = if total_cost g u.cost < u.cost_best then u.color else u.best) ∧
    (∀ u : SState,
      (after_sweep_update g u).cost_best = min u.cost_best (total_cost g u.cost)) ∧
    (∀ (fuel : Nat) (s : SState),
      (solveLoop g cfg O fuel s).state.cost_best
        = (solveLoop g cfg O fuel s).trace.foldl (fun b p => min b p.1) s.cost_best) ∧
    (∀ (fuel : Nat) (s : SState),
      List.Chain' (fun a b => b ≤ a)
        (s.cost_best :: (solveLoop g cfg O fuel s).trace.map Prod.snd)) :=
  ⟨fun _ _ => rfl, after_sweep_update_best g, after_sweep_update_cost_best g,
    solveLoop_cost_best_min g cfg O, solveLoop_chain g cfg O⟩

/-- Claim C9: ant steps and sweeps never touch the best snapshot, the
post-sweep bookkeeping replaces it exactly on strict improvement, and over
any continued run the recorded snapshot and its cost are unchanged unless
a strictly smaller cost was attained. -/
theorem C9_snapshot_frame (g : Graph) (cfg : Config) (O : Oracle) :
    (∀ (s : SState) (a : Nat),
      (antStep g cfg O s a).best = s.best ∧ (antStep g cfg O s a).cost_best = s.cost_best) ∧
    (∀ s : SState,
      (sweep g cfg O s).best = s.best ∧ (sweep g cfg O s).cost_best = s.cost_best) ∧
    (∀ u : SState,
      (after_sweep_update g u).best
        = if total_cost g u.cost < u.cost_best then u.color else u.best) ∧
    (∀ (fuel : Nat) (s : SState),
      ((solveLoop g cfg O fuel s).state.best = s.best ∧
        (solveLoop g cfg O fuel s).state.cost_best = s.cost_best)
      ∨ (solveLoop g cfg O fuel s).state.cost_best < s.cost_best) :=
  ⟨fun s a => ⟨antStep_best g cfg O s a, antStep_cost_best g cfg O s a⟩,
   fun s => ⟨sweep_best g cfg O s, sweep_cost_best g cfg O s⟩,
   after_sweep_update_best g,
   solveLoop_best_frame g cfg O⟩

/-- Claim C6: with order-2 mode disabled, `change_to_best` at a node `n1`
selects the smallest color index `c < n_colors` minimizing the number of
neighbors of `n1` whose color — taken from before the trials — equals
`c`: the chosen color is in range, its conflict count is minimal among
all candidates, and every smaller color index has a strictly larger
conflict count. -/
theorem C6_change_to_best_minimizes (g : Graph) (hg : g.Simple) (color : Nat → Nat)
    (n1 : Nat) (n_colors : Nat) (hn : 0 < n_colors) :
    change_to_best g n_colors false color n1 < n_colors ∧
    (∀ c, c < n_colors →
      neighborsWithColor g color n1 (change_to_best g n_colors false color n1)
        ≤ neighborsWithColor g color n1 c) ∧
    (∀ c, c < change_to_best g n_colors false color n1 →
      neighborsWithColor g color n1 (change_to_best g n_colors false color n1)
        < neighborsWithColor g color n1 c) := by
  have hcb := change_to_best_eq_argmin g n_colors color n1
  set costs := (List.range n_colors).map
      (fun c => conflict_level_sub g (n1 :: g.adj n1) (updF color n1 c) n1) with hcosts
  have hlen : costs.length = n_colors := by simp [hcosts]
  have hne : costs ≠ [] := by
    intro h
    rw [h] at hlen
    simp at hlen
    omega
  obtain ⟨h1, h2, h3⟩ := argminFirstIdx_spec costs hne
  have hval : ∀ c, c < n_colors → costs.getD c 0 = neighborsWithColor g color n1 c := by
    intro c hc
    show ((List.range n_colors).map
        (fun c => conflict_level_sub g (n1 :: g.adj n1) (updF color n1 c) n1)).getD c 0
      = neighborsWithColor g color n1 c
    have hc2 : c < ((List.range n_colors).map
        (fun c => conflict_level_sub g (n1 :: g.adj n1) (updF color n1 c) n1)).length := by
      simp [hc]
    rw [getD_eq_elem _ _ hc2]
    simp only [List.getElem_map, List.getElem_range]
    exact change_to_best_metric hg color n1 c
  have hlt : argminFirstIdx costs < n_colors := hlen ▸ h1
  rw [hcb]
  refine ⟨hlt, ?_, ?_⟩
  · intro c hc
    have h := h2 c (by rw [hlen]; exact hc)
    rw [hval _ hc, hval _ hlt] at h
    exact h
  · intro c hc
    have h := h3 c hc
    have hcn : c < n_colors := Nat.lt_trans hc hlt
    rw [hval _ hcn, hval _ hlt] at h
    exact h

/-- Witness for C6: on the all-zero path coloring, the best color for the
middle node is in range and its conflict count does not exceed color 0's. -/
theorem C6_witness :
    change_to_best pathG 2 false (fun _ => 0) 1 < 2 ∧
    neighborsWithColor pathG (fun _ => 0) 1 (change_to_best pathG 2 false (fun _ => 0) 1)
      ≤ neighborsWithColor pathG (fun _ => 0) 1 0 :=
  ⟨(C6_change_to_best_minimizes pathG (by decide) (fun _ => 0) 1 2 (by decide)).1,
   (C6_change_to_best_minimizes pathG (by decide) (fun _ => 0) 1 2 (by decide)).2.1 0
     (by decide)⟩

/-- Claim C7: for a node with a nonempty neighbor list,
`worst_adjacent_node` returns the neighbor at the first index attaining
the maximal metric — cached cost normally, `local_potential` in order-2
mode: that index is in range, the returned node is the one stored there,
no neighbor has a strictly larger metric, and all earlier neighbors have
a strictly smaller metric. -/
theorem C7_worst_adjacent_first_max (g : Graph) (order_2 : Bool) (color cost : Nat → Nat)
    (n : Nat) (hne : g.adj n ≠ []) :
    argmaxFirstIdx ((g.adj n).map
        (fun nei => if order_2 then local_potential g color nei else cost nei))
      < (g.adj n).length ∧
    worst_adjacent_node g order_2 color cost n
      = (g.adj n).getD (argmaxFirstIdx ((g.adj n).map
          (fun nei => if order_2 then local_potential g color nei else cost nei))) 0 ∧
    (∀ j, j < (g.adj n).length →
      (if order_2 then local_potential g color ((g.adj n).getD j 0)
        else cost ((g.adj n).getD j 0))
        ≤ (if order_2 then local_potential g color (worst_adjacent_node g order_2 color cost n)
            else cost (worst_adjacent_node g order_2 color cost n))) ∧
    (∀ j, j < argmaxFirstIdx ((g.adj n).map
        (fun nei => if order_2 then local_potential g color nei else cost nei)) →
      (if order_2 then local_potential g color ((g.adj n).getD j 0)
        else cost ((g.adj n).getD j 0))
        < (if order_2 then local_potential g color (worst_adjacent_node g order_2 color cost n)
            else cost (worst_adjacent_node g order_2 color cost n))) := by
  set metricF := fun nei => if order_2 then local_potential g color nei else cost nei
    with hmF
  set metrics := (g.adj n).map metricF with hmetrics
  have hlen : metrics.length = (g.adj n).length := by simp [hmetrics]
  have hne2 : metrics ≠ [] := by
    intro h
    rw [h] at hlen
    simp at hlen
    exact hne (List.length_eq_zero.mp hlen.symm)
  obtain ⟨h1, h2, h3⟩ := argmaxFirstIdx_spec metrics hne2
  have hval : ∀ j, j < (g.adj n).length → metrics.getD j 0 = metricF ((g.adj n).getD j 0) := by
    intro j hj
    show ((g.adj n).map metricF).getD j 0 = metricF ((g.adj n).getD j 0)
    have hj2 : j < ((g.adj n).map metricF).length := by simp [hj]
    rw [getD_eq_elem _ _ hj2, getD_eq_elem _ _ hj]
    simp only [List.getElem_map]
  have h1l : argmaxFirstIdx metrics < (g.adj n).length := hlen ▸ h1
  have hworst : worst_adjacent_node g order_2 color cost n
      = (g.adj n).getD (argmaxFirstIdx metrics) 0 := rfl
  refine ⟨h1l, hworst, ?_, ?_⟩
  · intro j hj
    have h := h2 j (by rw [hlen]; exact hj)
    rw [hval _ hj, hval _ h1l] at h
    rw [hworst]
    exact h
  · intro j hj
    have h := h3 j hj
    have hjl : j < (g.adj n).length := Nat.lt_trans hj h1l
    rw [hval _ hjl, hval _ h1l] at h
    rw [hworst]
    exact h

/-- Witness for C7 on the path graph's middle node with the identity cost
map: the chosen index is in range and the first neighbor's metric does not
exceed the returned neighbor's. -/
theorem C7_witness :
    argmaxFirstIdx ((pathG.adj 1).map
        (fun nei => if false then local_potential pathG (fun _ => 0) nei
          else (fun m => m) nei))
      < (pathG.adj 1).length ∧
    (fun m => m) ((pathG.adj 1).getD 0 0)
      ≤ (fun m => m) (worst_adjacent_node pathG false (fun _ => 0) (fun m => m) 1) :=
  ⟨(C7_worst_adjacent_first_max pathG false (fun _ => 0) (fun m => m) 1 (by decide)).1,
   (C7_worst_adjacent_first_max pathG false (fun _ => 0) (fun m => m) 1 (by decide)).2.2.1 0
     (by decide)⟩

/-- Claim C1 (code bug): the iteration counter is never advanced — the
`self.i += 1` of line 220 sits after `break` — so `i` stays at its reset
value in every branch of the loop; concretely, on the one-color triangle
with `max_iters = 1` the run completes two sweeps (trace length 2) and is
still looping (`fuelExhausted`) with `i = 0`, where the claim allows at
most one sweep. -/
theorem C1_iter_counter_never_advances :
    (∀ (g : Graph) (cfg : Config) (O : Oracle) (fuel : Nat) (s : SState),
      (solveLoop g cfg O fuel s).state.i = s.i) ∧
    (runSolver triG (fun _ => 0) (some 1) 3 true 2 2 1 1000 false oracleZeros 2).map
        (fun r => (r.exit, r.state.i, r.trace.length))
      = Except.ok (ExitKind.fuelExhausted, 0, 2) :=
  ⟨fun g cfg O fuel s => solveLoop_state_i g cfg O fuel s, rfl⟩

/-- Claim C2 counterexample: constructing with `n_colors = 0`,
`n_ants = 0`, `pc = 2`, `pn = 3` — violating every bound of the claim at
once — succeeds; no `ConfigurationError` is raised. -/
theorem C2_counterexample :
    (mk pathG (fun _ => 0) (some 0) 0 true 2 3 5 100 false oracleZeros).isOk = true ∧
    (specConfigOk 0 0 2 3 ↔ False) := by
  refine ⟨rfl, ?_, False.elim⟩
  intro h
  exact absurd h.1 (by omega)

theorem random_node_coloring_ok (g : Graph) (nOpt : Option Nat) (O : Oracle)
    (color : Nat → Nat) (t : Nat) (h : nOpt ≠ some 0) :
    (random_node_coloring g nOpt O color t).isOk = true := by
  unfold random_node_coloring
  cases nOpt with
  | none =>
    rw [if_neg (Nat.succ_ne_zero (maxDegree g))]
    rfl
  | some n =>
    by_cases hc : maxDegree g + 1 < n
    · simp only [hc, if_true]
      rw [if_neg (Nat.succ_ne_zero (maxDegree g))]
      rfl
    · simp only [hc, if_false]
      have hn0 : n ≠ 0 := fun he => h (by rw [he])
      rw [if_neg hn0]
      rfl

/-- Claim C2 amended: `__init__` validates nothing.  For every parameter
assignment — the stated bounds satisfied or not — construction succeeds,
provided only that the graph has a node (else Python's `max()` raises a
`ValueError` at line 72) and that an explicit `n_colors = 0` is not
combined with `pre_colored = False` (else `np.random.choice` of an empty
`arange` raises a `ValueError`).  In particular no `ConfigurationError`
exists or is raised. -/
theorem C2_amended_no_validation (g : Graph) (gcolor : Nat → Nat) (nOpt : Option Nat)
    (n_ants : Nat) (pre_colored : Bool) (pc pn : ℚ) (max_iters : Nat) (max_time : ℚ)
    (order_2 : Bool) (O : Oracle) (hne : g.nodes ≠ [])
    (hpal : pre_colored = false → nOpt ≠ some 0) :
    (mk g gcolor nOpt n_ants pre_colored pc pn max_iters max_time order_2 O).isOk = true := by
  unfold mk
  have hb : ¬ (g.nodes.isEmpty = true) := by
    simp only [List.isEmpty_iff]
    exact hne
  rw [if_neg hb]
  cases pre_colored with
  | true => rfl
  | false =>
    have hsome : (some (nOpt.getD (maxDegree g + 1))) ≠ some 0 := by
      intro he
      cases nOpt with
      | none =>
        simp only [Option.getD] at he
        exact Nat.succ_ne_zero (maxDegree g) (Option.some.inj he)
      | some n =>
        exact hpal rfl (by simpa using he)
    have hok := random_node_coloring_ok g (some (nOpt.getD (maxDegree g + 1))) O gcolor 0 hsome
    simp only [Bool.false_eq_true, if_false]
    cases hrc : random_node_coloring g (some (nOpt.getD (maxDegree g + 1))) O gcolor 0 with
    | error e =>
      rw [hrc] at hok
      exact absurd hok (by simp [Except.isOk, Except.toBool])
    | ok pr =>
      rfl

/-- Witness for the amended C2: a construction with every bound violated
(`n_colors = 0`, `n_ants = 0`, `pc = 2`, `pn = 3`) still succeeds. -/
theorem C2_witness :
    (mk triG (fun _ => 0) (some 0) 0 true 2 3 5 100 false oracleZeros).isOk = true :=
  C2_amended_no_validation triG (fun _ => 0) (some 0) 0 true 2 3 5 100 false oracleZeros
    (by decide) (fun h => absurd h (by decide))

/-- Claim C3 (code bug): on the path graph with node identifiers 5-6-7
and a requested population of 2 ants, initialization draws the positions
from `np.arange(2)`: the ants sit at `[0, 1]` — `min(2, 3) = 2` pairwise
distinct positions, none of which is a node identifier of the graph. -/
theorem C3_ants_initialized_outside_nodes :
    (mk shiftG (fun _ => 0) (some 2) 2 true 2 2 5 100 false oracleZeros).map
        (fun p => (p.2.ants, p.2.ants.all (fun a => !(shiftG.nodes.contains a))))
      = Except.ok ([0, 1], true) := rfl

/-- Claim C8 counterexample: two runs from the identical graph and the
identical constructor configuration — same `n_colors`, `n_ants`, `pc`,
`pn`, budgets; nothing else is exposed — but different ambient NumPy
states produce different best colorings, so the randomness source is not
part of the exposed configuration. -/
theorem C8_counterexample :
    (runSolver pathG (fun _ => 0) (some 2) 1 false 1 1 0 100 false oracleZeros 5).map
        (fun r => r.state.best 1) = Except.ok 0 ∧
    (runSolver pathG (fun _ => 0) (some 2) 1 false 1 1 0 100 false oracleOnes 5).map
        (fun r => r.state.best 1) = Except.ok 1 :=
  ⟨rfl, rfl⟩

/-- Claim C8 amended: the run is a deterministic function of the graph,
the constructor arguments, and the ambient random/clock streams; two runs
with identical graph, identical configuration, and identical ambient
state produce identical sweep-by-sweep traces and pointwise identical
final best colorings. -/
theorem C8_amended_determinism (g : Graph) (gcolor : Nat → Nat) (nOpt : Option Nat)
    (n_ants : Nat) (pre : Bool) (pc pn : ℚ) (mi : Nat) (mt : ℚ) (o2 : Bool)
    (O1 O2 : Oracle) (fuel : Nat) (h : O1 = O2) :
    (runSolver g gcolor nOpt n_ants pre pc pn mi mt o2 O1 fuel).map (fun r => r.trace)
      = (runSolver g gcolor nOpt n_ants pre pc pn mi mt o2 O2 fuel).map (fun r => r.trace)
    ∧ ∀ nd : Nat,
      (runSolver g gcolor nOpt n_ants pre pc pn mi mt o2 O1 fuel).map
          (fun r => r.state.best nd)
        = (runSolver g gcolor nOpt n_ants pre pc pn mi mt o2 O2 fuel).map
            (fun r => r.state.best nd) := by
  subst h
  exact ⟨rfl, fun nd => rfl⟩

/-- Witness for the amended C8 at a concrete graph, configuration and
ambient state. -/
theorem C8_witness :
    (runSolver pathG (fun _ => 0) (some 2) 1 false 1 1 0 100 false oracleZeros 5).map
        (fun r => r.trace)
      = (runSolver pathG (fun _ => 0) (some 2) 1 false 1 1 0 100 false oracleZeros
          5).map (fun r => r.trace) :=
  (C8_amended_determinism pathG (fun _ => 0) (some 2) 1 false 1 1 0 100 false
    oracleZeros oracleZeros 5 rfl).1

theorem coloring_fold_cases (K : Nat) (hK : 0 < K) (zf : Nat → Nat) :
    ∀ (l : List Nat) (acc : (Nat → Nat) × Nat) (nd : Nat),
      (l.foldl (fun acc nd => (updF acc.1 nd (zf acc.2 % K), acc.2 + 1)) acc).1 nd
          = acc.1 nd ∨
      (l.foldl (fun acc nd => (updF acc.1 nd (zf acc.2 % K), acc.2 + 1)) acc).1 nd < K := by
  intro l
  induction l with
  | nil => intro acc nd; exact Or.inl rfl
  | cons a l ih =>
    intro acc nd
    rw [List.foldl_cons]
    rcases ih (updF acc.1 a (zf acc.2 % K), acc.2 + 1) nd with h | h
    · rw [h]
      by_cases hnd : nd = a
      · subst hnd
        right
        show updF acc.1 nd (zf acc.2 % K) nd < K
        rw [updF_same]
        exact Nat.mod_lt _ hK
      · left
        show updF acc.1 a (zf acc.2 % K) nd = acc.1 nd
        exact updF_other _ _ _ _ hnd
    · right
      exact h

theorem coloring_fold_bound (K : Nat) (hK : 0 < K) (zf : Nat → Nat) :
    ∀ (l : List Nat) (acc : (Nat → Nat) × Nat) (nd : Nat), nd ∈ l →
      (l.foldl (fun acc nd => (updF acc.1 nd (zf acc.2 % K), acc.2 + 1)) acc).1 nd < K := by
  intro l
  induction l with
  | nil => intro acc nd h; cases h
  | cons a l ih =>
    intro acc nd h
    rw [List.foldl_cons]
    rcases List.mem_cons.mp h with he | hm
    · subst he
      rcases coloring_fold_cases K hK zf l (updF acc.1 nd (zf acc.2 % K), acc.2 + 1) nd
        with h2 | h2
      · rw [h2]
        show updF acc.1 nd (zf acc.2 % K) nd < K
        rw [updF_same]
        exact Nat.mod_lt _ hK
      · exact h2
    · exact ih _ nd hm

/-- Claim C10: when the requested palette strictly exceeds
`max_degree + 1`, `random_node_coloring` silently caps it — the call
succeeds and every node receives a color strictly below
`max_degree + 1` — while a solver constructed with `pre_colored = False`
and that request keeps the larger value in its `n_colors` attribute. -/
theorem C10_palette_cap (g : Graph) (n : Nat) (O : Oracle) (color0 : Nat → Nat) (t : Nat)
    (hn : maxDegree g + 1 < n) :
    (random_node_coloring g (some n) O color0 t).isOk = true ∧
    (∀ pr, random_node_coloring g (some n) O color0 t = Except.ok pr →
      ∀ nd ∈ g.nodes, pr.1 nd < maxDegree g + 1) ∧
    (∀ (gcolor : Nat → Nat) (n_ants : Nat) (pc pn : ℚ) (mi : Nat) (mt : ℚ) (o2 : Bool)
        (cfg : Config) (st : SState),
      mk g gcolor (some n) n_ants false pc pn mi mt o2 O = Except.ok (cfg, st) →
      cfg.n_colors = n) := by
  have hrw : random_node_coloring g (some n) O color0 t
      = Except.ok (g.nodes.foldl
          (fun acc nd => (updF acc.1 nd (O.z acc.2 % (maxDegree g + 1)), acc.2 + 1))
          (color0, t)) := by
    unfold random_node_coloring
    simp only [hn, if_true]
    rw [if_neg (Nat.succ_ne_zero (maxDegree g))]
  refine ⟨by rw [hrw]; rfl, ?_, ?_⟩
  · intro pr hpr nd hnd
    rw [hrw] at hpr
    have hpr2 := Except.ok.inj hpr
    rw [← hpr2]
    exact coloring_fold_bound (maxDegree g + 1) (Nat.succ_pos _) O.z g.nodes (color0, t) nd hnd
  · intro gcolor n_ants pc pn mi mt o2 cfg st hmk
    unfold mk at hmk
    by_cases hempty : g.nodes.isEmpty = true
    · rw [if_pos hempty] at hmk
      exact absurd hmk (by simp)
    · rw [if_neg hempty] at hmk
      simp only [Bool.false_eq_true, if_false] at hmk
      cases hrc : random_node_coloring g (some ((some n).getD (maxDegree g + 1))) O gcolor 0 with
      | error e =>
        rw [hrc] at hmk
        exact absurd hmk (by simp)
      | ok pr =>
        rw [hrc] at hmk
        have h2 := Except.ok.inj hmk
        have h3 : resolvedConfig g (some n) n_ants pc pn mi mt o2 = cfg :=
          congrArg Prod.fst h2
        rw [← h3]
        rfl

/-- Witness for C10: the path graph has maximal degree 2, and requesting
5 colors caps the palette while the solver keeps `n_colors = 5`. -/
theorem C10_witness :
    (random_node_coloring pathG (some 5) oracleZeros (fun _ => 0) 0).isOk = true :=
  (C10_palette_cap pathG 5 oracleZeros (fun _ => 0) 0 (by decide)).1

end AntSolver
